import Mathlib

/-!
Verification development for the `youtubeupload` repository.

The Python sources are shallowly embedded: pure functions become Lean
functions over `List Char` (Python `str`), `Nat`/`Int`/`ℚ` (Python `int`
and `float` durations), and `Option`/sum types (fallible calls and
external-collaborator outcomes).  Filesystem and network effects are
represented by explicit outcome parameters and by effect records listing
the ledger appends and deletion attempts a call performs.
-/

namespace YTUpload

/-! ### Calendar model (embedding of the `datetime` values used by the code) -/

/-- A calendar date, as produced by `datetime.date()`. -/
structure PDate where
  year : Nat
  month : Nat
  day : Nat
deriving DecidableEq, Repr

/-- A datetime, as produced by `datetime.strptime(ts, "%Y-%m-%d %H-%M-%S")`. -/
structure PDateTime where
  year : Nat
  month : Nat
  day : Nat
  hour : Nat
  minute : Nat
  second : Nat
deriving DecidableEq, Repr

/-- `datetime.date()`: drop the time-of-day fields. -/
def PDateTime.toDate (dt : PDateTime) : PDate :=
  ⟨dt.year, dt.month, dt.day⟩

/-- Gregorian leap-year rule used by `datetime`. -/
def isLeapYear (y : Nat) : Bool :=
  y % 4 == 0 && (y % 100 != 0 || y % 400 == 0)

/-- Number of days of month `m` (1-12) in year `y`, as in `calendar`/`datetime`. -/
def daysInMonth (y m : Nat) : Nat :=
  if m == 2 then (if isLeapYear y then 29 else 28)
  else if m == 4 || m == 6 || m == 9 || m == 11 then 30
  else 31

/-- The previous calendar day in the proleptic Gregorian calendar:
the date reached by `dt - timedelta(days=1)`. -/
def PDate.prevDay (d : PDate) : PDate :=
  if d.day > 1 then ⟨d.year, d.month, d.day - 1⟩
  else if d.month > 1 then ⟨d.year, d.month - 1, daysInMonth d.year (d.month - 1)⟩
  else ⟨d.year - 1, 12, 31⟩

/-- `dt -= timedelta(days=1)`: same time of day on the previous calendar day. -/
def PDateTime.subOneDay (dt : PDateTime) : PDateTime :=
  let d := PDate.prevDay dt.toDate
  ⟨d.year, d.month, d.day, dt.hour, dt.minute, dt.second⟩

/-! ### String splitting primitives (Python `str.split`) -/

/-- Python `s.split(c)` for a single-character separator. -/
def splitChar (sep : Char) : List Char → List (List Char)
  | [] => [[]]
  | c :: rest =>
    if c = sep then [] :: splitChar sep rest
    else
      match splitChar sep rest with
      | p :: ps => (c :: p) :: ps
      | [] => [[c]]

/-- Locate the first occurrence of (non-empty) `sep` in `xs`, returning the
text before it and the text after it. -/
def findSep (sep : List Char) : List Char → Option (List Char × List Char)
  | [] => none
  | x :: rest =>
    if sep.isPrefixOf (x :: rest) then some ([], (x :: rest).drop sep.length)
    else
      match findSep sep rest with
      | some (p, q) => some (x :: p, q)
      | none => none

/-- Fuelled worker for `splitSep`. -/
def splitSepAux (sep : List Char) : Nat → List Char → List (List Char)
  | 0, xs => [xs]
  | fuel + 1, xs =>
    match findSep sep xs with
    | none => [xs]
    | some (pre, post) => pre :: splitSepAux sep fuel post

/-- Python `s.split(sep)` for a non-empty multi-character separator
(the code always uses `" - "`).  The result is never empty. -/
def splitSep (sep xs : List Char) : List (List Char) :=
  splitSepAux sep (xs.length + 1) xs

/-! ### Timestamp parsing (embedding of `datetime.strptime(ts, "%Y-%m-%d %H-%M-%S")`) -/

/-- Numeric value of a decimal digit character, `none` for non-digits. -/
def digitVal (c : Char) : Option Nat :=
  if '0' ≤ c ∧ c ≤ '9' then some (c.toNat - '0'.toNat) else none

/-- Value of a non-empty all-digit character list, `none` otherwise. -/
def digitsVal : List Char → Option Nat
  | [] => none
  | cs => cs.foldl (fun acc c => do
      let a ← acc
      let d ← digitVal c
      pure (a * 10 + d)) (some 0)

/-- A 1- or 2-digit numeric field whose value lies in `[lo, hi]`, mirroring the
`strptime` field patterns for `%m/%d/%H/%M/%S`. -/
def fieldRange (cs : List Char) (lo hi : Nat) : Option Nat := do
  if cs.length = 0 ∨ 2 < cs.length then none
  else
    let n ← digitsVal cs
    if lo ≤ n ∧ n ≤ hi then some n else none

/-- The `%Y` field: exactly four digits; `datetime` further requires `year ≥ 1`. -/
def fieldYear (cs : List Char) : Option Nat := do
  if cs.length ≠ 4 then none
  else
    let n ← digitsVal cs
    if 1 ≤ n then some n else none

/-- `datetime.strptime(ts, "%Y-%m-%d %H-%M-%S")`: parse and range-validate a
timestamp, failing (like the `ValueError` the code converts to
`InvalidFilenameError`) on any mismatch. -/
def parseTimestamp (cs : List Char) : Option PDateTime :=
  match splitChar ' ' cs with
  | [datePart, timePart] =>
    match splitChar '-' datePart, splitChar '-' timePart with
    | [ys, ms, ds], [hs, mis, ss] => do
      let y ← fieldYear ys
      let m ← fieldRange ms 1 12
      let d ← fieldRange ds 1 31
      let h ← fieldRange hs 0 23
      let mi ← fieldRange mis 0 59
      let s ← fieldRange ss 0 59
      if d ≤ daysInMonth y m then some ⟨y, m, d, h, mi, s⟩ else none
    | _, _ => none
  | _ => none

/-! ### FilenameParser (src/video_processor.py, class FilenameParser) -/

/-- `filename.split(" - ")[0]`: the timestamp segment of a filename
(`str.split` never returns an empty list, so the default is never used). -/
def firstSeg (f : List Char) : List Char :=
  (splitSep " - ".data f).headD f

/-- The raw timestamp recorded in the filename, before any early-morning
adjustment: `datetime.strptime(filename.split(" - ")[0], "%Y-%m-%d %H-%M-%S")`. -/
def parsed_timestamp (f : List Char) : Option PDateTime :=
  parseTimestamp (firstSeg f)

/-- `FilenameParser.get_video_datetime`: parse the filename's timestamp and
shift it back one day when `hour < early_morning_cutoff`.  The Python raises
`InvalidFilenameError` where this returns `none`. -/
def get_video_datetime (cutoff : Nat) (f : List Char) : Option PDateTime :=
  (parsed_timestamp f).map (fun dt => if dt.hour < cutoff then dt.subOneDay else dt)

/-- `FilenameParser.get_video_date`: the date component of the adjusted datetime. -/
def get_video_date (cutoff : Nat) (f : List Char) : Option PDate :=
  (get_video_datetime cutoff f).map PDateTime.toDate

/-- `FilenameParser.extract_clip_description`: strip a trailing `.mp4`, drop the
first `" - "` segment and rejoin the rest; a filename with no `" - "` is
returned unchanged. -/
def extract_clip_description (f : List Char) : List Char :=
  let fn := if ".mp4".data.isSuffixOf f then f.take (f.length - 4) else f
  match splitSep " - ".data fn with
  | _ :: rest@(_ :: _) => List.intercalate " - ".data rest
  | _ => fn

/-! ### Grouping (src/main.py, `VideoUploadManager._get_pending_videos`) -/

/-- `os.path.basename` (POSIX): the part after the last path separator. -/
def basename (p : List Char) : List Char :=
  (splitChar '/' p).getLastD p

/-- `filename.endswith(".mp4")`. -/
def endsWithMp4 (f : List Char) : Bool :=
  ".mp4".data.isSuffixOf f

/-- Append `f` to the bucket keyed `d`, creating the bucket at the end on first
use — exactly the insertion-ordered behaviour of
`defaultdict(list)[video_date].append(...)` in Python. -/
def addToBucket (buckets : List (PDate × List (List Char))) (d : PDate) (f : List Char) :
    List (PDate × List (List Char)) :=
  match buckets with
  | [] => [(d, [f])]
  | (d', fs) :: rest =>
    if d' = d then (d', fs ++ [f]) :: rest else (d', fs) :: addToBucket rest d f

/-- All files appearing in any bucket. -/
def bucketFiles (buckets : List (PDate × List (List Char))) : List (List Char) :=
  (buckets.map Prod.snd).flatten

/-- `VideoUploadManager._get_pending_videos`: scan the directory listing,
skipping non-`.mp4` names and names already in the uploaded ledger; parse each
remaining name's effective date, skipping names that fail to parse; group the
survivors into per-date buckets in discovery order.  (The source stores the
`video_dir`-joined path in the bucket and recovers the bare filename with
`os.path.basename` before marking the ledger; since directory entries contain
no separator that round-trip is the identity, and the embedding works with the
bare filenames throughout.)

`scanStep` is one iteration of the scan loop. -/
def scanStep (cutoff : Nat) (uploaded : List (List Char))
    (buckets : List (PDate × List (List Char))) (f : List Char) :
    List (PDate × List (List Char)) :=
  if ¬ endsWithMp4 f ∨ f ∈ uploaded then buckets
  else
    match get_video_date cutoff f with
    | some d => addToBucket buckets d f
    | none => buckets

def get_pending_videos (cutoff : Nat) (dirFiles uploaded : List (List Char)) :
    List (PDate × List (List Char)) :=
  dirFiles.foldl (scanStep cutoff uploaded) []

/-- The condition under which the scan keeps a directory entry: an `.mp4` name,
not in the uploaded ledger, whose effective date parses. -/
def isCandidate (cutoff : Nat) (uploaded : List (List Char)) (f : List Char) : Prop :=
  endsWithMp4 f = true ∧ f ∉ uploaded ∧ (get_video_date cutoff f).isSome

/-! ### In-bucket ordering (src/main.py lines 184-188) -/

/-- A linearisation of `PDateTime`: strictly monotone in each field over the
ranges `strptime` admits (month ≤ 12 < 13, day ≤ 31 < 32, hour < 24,
minute/second < 60), so comparing keys is exactly Python's `datetime` order. -/
def dtKey (dt : PDateTime) : Nat :=
  ((((dt.year * 13 + dt.month) * 32 + dt.day) * 24 + dt.hour) * 60 + dt.minute) * 60 + dt.second

/-- The sort key of `sorted(video_files, key=lambda fp: get_video_datetime(basename(fp)))`:
the adjusted datetime.  On a file that fails to parse the source raises instead
(failing the whole group), so the sort only ever runs on parseable names; the
`0` default is never exercised there. -/
def sortKey (cutoff : Nat) (f : List Char) : Nat :=
  match get_video_datetime cutoff (basename f) with
  | some dt => dtKey dt
  | none => 0

/-- The in-bucket ordering relation `sorted(..., key=...)` uses: ascending
comparison of the adjusted-datetime keys. -/
def sortLE (cutoff : Nat) (a b : List Char) : Prop :=
  sortKey cutoff a ≤ sortKey cutoff b

instance (cutoff : Nat) : DecidableRel (sortLE cutoff) :=
  fun a b => Nat.decLe (sortKey cutoff a) (sortKey cutoff b)

/-- The code's in-bucket ordering (src/main.py line 185): Python `sorted` is
the unique stable ascending sort, embedded as the (stable) insertion sort. -/
def sortFiles (cutoff : Nat) (files : List (List Char)) : List (List Char) :=
  List.insertionSort (sortLE cutoff) files

/-- Whether a file sequence is non-decreasing under the numeric key `k`. -/
def nonDecBy (k : List Char → Nat) : List (List Char) → Bool
  | [] => true
  | [_] => true
  | a :: b :: rest => k a ≤ k b && nonDecBy k (b :: rest)

/-- The raw (unadjusted) timestamp key of a filename. -/
def rawKey (f : List Char) : Nat :=
  match parsed_timestamp f with
  | some dt => dtKey dt
  | none => 0

/-! ### Time formatting (src/video_processor.py, `VideoProcessor.format_time`)

Clip durations are `float(ffprobe stdout)` in Python; the embedding carries
them as exact rationals, and `round` is Python 3's round-half-to-even. -/

/-- Python 3 `round(q)`: nearest integer, ties to the even integer. -/
def pyRound (q : ℚ) : ℤ :=
  let fl : ℤ := q.floor
  let frac : ℚ := q - (fl : ℚ)
  if frac < mkRat 1 2 then fl
  else if mkRat 1 2 < frac then fl + 1
  else if fl % 2 = 0 then fl else fl + 1

/-- Python `f"{n:02d}"` for a non-negative value: zero-pad to width 2. -/
def pad2 (n : Nat) : List Char :=
  let ds := Nat.toDigits 10 n
  if ds.length < 2 then '0' :: ds else ds

/-- Python `f"{n:04d}"` for a non-negative value: zero-pad to width 4
(used by `strftime('%d-%m-%Y')` for the year). -/
def pad4 (n : Nat) : List Char :=
  let ds := Nat.toDigits 10 n
  List.replicate (4 - ds.length) '0' ++ ds

/-- `VideoProcessor.format_time`: round to a whole second, then print
`MM:SS`, switching to `HH:MM:SS` when the hour component is positive.
Python `//` and `%` (floor division with non-negative remainder for the
positive divisors used here) are `Int.ediv`/`Int.emod`. -/
def format_time (seconds : ℚ) : List Char :=
  let s : ℤ := pyRound seconds
  let hours : ℤ := s.ediv 3600
  let minutes : ℤ := (s.emod 3600).ediv 60
  let secs : ℤ := s.emod 60
  if hours > 0 then
    pad2 hours.toNat ++ ':' :: pad2 minutes.toNat ++ ':' :: pad2 secs.toNat
  else
    pad2 minutes.toNat ++ ':' :: pad2 secs.toNat

/-! ### Description synthesis (src/main.py, `VideoUploadManager._create_merged_description`) -/

/-- A clip as the description builder sees it: its basename and the outcome of
`VideoProcessor.get_video_duration` on it (`none` embeds the `FFmpegError`
raise). -/
structure ClipFile where
  name : List Char
  duration : Option ℚ
deriving DecidableEq

/-- The loop body of `_create_merged_description`: for each file, format the
running offset and append the line, then fetch the duration and advance the
offset.  The line is appended before the duration fetch, so a failed fetch
(caught by the `except` and turned into `continue`) still emits the line and
only skips the offset advance. -/
def descLines (offset : ℚ) : List ClipFile → List (List Char)
  | [] => []
  | f :: rest =>
    let line := format_time offset ++ ' ' :: ' ' :: extract_clip_description f.name
    match f.duration with
    | some d => line :: descLines (offset + d) rest
    | none => line :: descLines offset rest

/-- `VideoUploadManager._create_merged_description`: newline-joined lines. -/
def create_merged_description (files : List ClipFile) : List Char :=
  List.intercalate ['\n'] (descLines 0 files)

/-- Sum of the durations that were actually obtained (a failed fetch
contributes nothing — the offset advance is skipped for it). -/
def obtainedSum (files : List ClipFile) : ℚ :=
  (files.filterMap ClipFile.duration).sum

/-! ### Upload orchestration effects (src/main.py, `VideoUploadManager`) -/

/-- Outcome of `YouTubeUploader.upload_video` as `_upload_single_video` /
`_upload_merged_video` observe it: a video id, a non-exceptional `None`
(decline), or a raised exception. -/
inductive TransportOutcome
  | vid (v : List Char)
  | declined
  | raised
deriving DecidableEq

/-- The externally visible effects of processing one day-group: the filenames
appended to the uploaded ledger, the paths whose deletion is attempted
(`_safe_delete_file`; deletion is skipped wholesale when
`delete_after_upload` is off), the number of `FallbackUploader.upload_video`
invocations, and the boolean the method returns. -/
structure UploadEffects where
  ledgerAppends : List (List Char)
  deletions : List (List Char)
  fallbackCalls : Nat
  ok : Bool
deriving DecidableEq

/-- `VideoUploadManager._upload_single_video`.  `titleOk` is whether
`parse_title` succeeded (its raise is caught by the outer `except`, failing the
group with no effects). -/
def upload_single_video (deleteCfg : Bool) (file_path : List Char) (titleOk : Bool)
    (transport : TransportOutcome) (fallback : Bool) : UploadEffects :=
  if ¬ titleOk then ⟨[], [], 0, false⟩
  else
    match transport with
    | .vid _ => ⟨[basename file_path], if deleteCfg then [file_path] else [], 0, true⟩
    | .declined =>
      if fallback then
        ⟨[basename file_path], if deleteCfg then [file_path] else [], 1, true⟩
      else ⟨[], [], 1, false⟩
    | .raised => ⟨[], [], 0, false⟩

/-- `f"{date.strftime('%d-%m-%Y')}_rudikiaz_arenas.mp4"`. -/
def merged_filename (date : PDate) : List Char :=
  pad2 date.day ++ '-' :: pad2 date.month ++ '-' :: pad4 date.year ++ "_rudikiaz_arenas.mp4".data

/-- `os.path.join(temp_dir, name)` for a relative `name`. -/
def joinPath (dir name : List Char) : List Char :=
  dir ++ '/' :: name

/-- `VideoUploadManager._upload_merged_video`.  `mergeOk` is whether
`merge_videos` succeeded (both its `False` return and its `FFmpegError` raise
end the group with no effects).  On success the ledger receives the basenames
of all constituent files (in original bucket order) and deletion is attempted
on the merged temp file and then every constituent source file. -/
def upload_merged_video (deleteCfg : Bool) (temp_dir : List Char)
    (video_files : List (List Char)) (date : PDate) (mergeOk : Bool)
    (transport : TransportOutcome) (fallback : Bool) : UploadEffects :=
  let merged_path := joinPath temp_dir (merged_filename date)
  if ¬ mergeOk then ⟨[], [], 0, false⟩
  else
    let succeed : UploadEffects → UploadEffects := fun e =>
      { e with
        ledgerAppends := video_files.map basename
        deletions := if deleteCfg then merged_path :: video_files else []
        ok := true }
    match transport with
    | .vid _ => succeed ⟨[], [], 0, true⟩
    | .declined =>
      if fallback then succeed ⟨[], [], 1, true⟩ else ⟨[], [], 1, false⟩
    | .raised => ⟨[], [], 0, false⟩

/-! ### Credential acquisition (src/youtube_uploader.py, `YouTubeUploader._get_credentials`) -/

/-- The predicates of a `google.oauth2.credentials.Credentials` object the code
consults.  In the Google library `valid = token present ∧ not expired`, so a
persisted file without an access token loads as
`valid = false, expired = false`. -/
structure CredRecord where
  valid : Bool
  expired : Bool
  hasRefreshToken : Bool
deriving DecidableEq

/-- The environment `_get_credentials` runs against: the persisted credential
record (`none` if the file is absent or fails to load), whether the
client-secrets file exists, and the outcomes of the two network interactions —
`creds.refresh(Request())` and the interactive OAuth flow (`none` embeds a
raise). -/
structure AuthEnv where
  persistedCred : Option CredRecord
  secretsFileExists : Bool
  refreshResult : Option CredRecord
  flowResult : Option CredRecord
deriving DecidableEq

/-- Result of `_get_credentials`: the returned record or the raised
`AuthenticationError`, each tagged with whether any network interaction
(refresh or OAuth flow) was attempted. -/
inductive AuthOutcome
  | ok (c : CredRecord) (networkUsed : Bool)
  | authError (networkUsed : Bool)
deriving DecidableEq

/-- The `if not creds:` block of `_get_credentials`: require the client-secrets
file (raising `AuthenticationError` with setup instructions when it is absent,
before any network call), then run the interactive flow. -/
def obtainNewCreds (env : AuthEnv) (net : Bool) : AuthOutcome :=
  if ¬ env.secretsFileExists then .authError net
  else
    match env.flowResult with
    | some c => .ok c true
    | none => .authError true

/-- `YouTubeUploader._get_credentials`, branch for branch.  Note the slip: a
loaded record with `valid = false` that is not (`expired` ∧ refreshable) skips
both the refresh and the re-authorization block and is saved and returned
as-is, still invalid. -/
def get_credentials (env : AuthEnv) : AuthOutcome :=
  match env.persistedCred with
  | some c =>
    if c.valid then .ok c false
    else if c.expired && c.hasRefreshToken then
      match env.refreshResult with
      | some c' => .ok c' true
      | none => obtainNewCreds env true
    else .ok c false
  | none => obtainNewCreds env false

/-! ### Whole-run model (src/main.py, `VideoUploadManager.process_videos`) -/

/-- State threaded through one `process_videos` run over its buckets:
the in-memory ledger (`_uploaded_files`, which `_mark_as_uploaded` extends),
how many groups were attempted and how many group uploads succeeded. -/
structure RunResult where
  ledger : List (List Char)
  attempts : Nat
  uploads : Nat
deriving DecidableEq

/-- One pipeline run: scan and group the directory, then process each group;
`oracle` abstracts whether the (single or merged) upload of a group succeeds —
fixed across runs, reflecting an unchanged environment.  A successful group
marks all its files in the ledger; a failed one changes nothing.
`runStep` processes one day-group. -/
def runStep (oracle : PDate × List (List Char) → Bool)
    (st : RunResult) (g : PDate × List (List Char)) : RunResult :=
  if oracle g then
    ⟨st.ledger ++ g.2, st.attempts + 1, st.uploads + 1⟩
  else
    ⟨st.ledger, st.attempts + 1, st.uploads⟩

def runPipeline (cutoff : Nat) (oracle : PDate × List (List Char) → Bool)
    (dirFiles uploaded : List (List Char)) : RunResult :=
  (get_pending_videos cutoff dirFiles uploaded).foldl (runStep oracle) ⟨uploaded, 0, 0⟩

/-- The statistics dictionary of `process_videos`. -/
structure Stats where
  total_processed : Nat
  successful_uploads : Nat
  failed_uploads : Nat
  single_videos : Nat
  merged_videos : Nat
deriving DecidableEq

/-- The per-group body of the `process_videos` loop, applied to the group's
size and whether its upload (single or merged) succeeded. -/
def processGroup (s : Stats) (g : Nat × Bool) : Stats :=
  let s := { s with total_processed := s.total_processed + g.1 }
  if g.1 = 1 then
    if g.2 then
      { s with successful_uploads := s.successful_uploads + 1,
               single_videos := s.single_videos + 1 }
    else { s with failed_uploads := s.failed_uploads + 1 }
  else
    if g.2 then
      { s with successful_uploads := s.successful_uploads + g.1,
               merged_videos := s.merged_videos + 1 }
    else { s with failed_uploads := s.failed_uploads + g.1 }

/-- `VideoUploadManager.process_videos`, abstracted over the per-group sizes
and upload outcomes (the "no pending videos" early return is the `[]` case). -/
def process_videos (groups : List (Nat × Bool)) : Stats :=
  groups.foldl processGroup ⟨0, 0, 0, 0, 0⟩

/-! ## Supporting lemmas -/

theorem processGroup_foldl (groups : List (Nat × Bool)) (s : Stats) :
    let r := groups.foldl processGroup s
    r.total_processed = s.total_processed + (groups.map Prod.fst).sum
    ∧ r.successful_uploads = s.successful_uploads + ((groups.filter Prod.snd).map Prod.fst).sum
    ∧ r.failed_uploads
        = s.failed_uploads + ((groups.filter (fun g => !g.2)).map Prod.fst).sum
    ∧ r.single_videos + r.merged_videos
        = s.single_videos + s.merged_videos + (groups.filter Prod.snd).length := by
  induction groups generalizing s with
  | nil => simp
  | cons g rest ih =>
    obtain ⟨n, ok⟩ := g
    have h := ih (processGroup s (n, ok))
    by_cases hn : n = 1 <;> cases ok <;>
      simp [processGroup, hn, List.filter_cons] at h ⊢ <;>
      omega

theorem sum_filter_split (groups : List (Nat × Bool)) :
    ((groups.filter Prod.snd).map Prod.fst).sum
      + ((groups.filter (fun g => !g.2)).map Prod.fst).sum = (groups.map Prod.fst).sum := by
  induction groups with
  | nil => simp
  | cons g rest ih =>
    cases hg : g.2 <;> simp [List.filter_cons, hg] <;> omega

theorem bucketFiles_cons (b : PDate × List (List Char))
    (rest : List (PDate × List (List Char))) :
    bucketFiles (b :: rest) = b.2 ++ bucketFiles rest := by
  simp [bucketFiles]

theorem mem_bucketFiles_addToBucket {x f : List Char} {d : PDate}
    (bs : List (PDate × List (List Char))) :
    x ∈ bucketFiles (addToBucket bs d f) ↔ x ∈ bucketFiles bs ∨ x = f := by
  induction bs with
  | nil => simp [addToBucket, bucketFiles]
  | cons b rest ih =>
    obtain ⟨d', fs⟩ := b
    by_cases h : d' = d <;>
      simp only [addToBucket, h, if_true, if_false, ite_true, ite_false,
        bucketFiles_cons, List.mem_append, List.mem_singleton, ih] <;>
      tauto

theorem mem_bucketFiles_scanStep (c : Nat) (u : List (List Char))
    (bs : List (PDate × List (List Char))) (f x : List Char) :
    x ∈ bucketFiles (scanStep c u bs f)
      ↔ x ∈ bucketFiles bs ∨ (x = f ∧ isCandidate c u f) := by
  by_cases hif : ¬ endsWithMp4 f = true ∨ f ∈ u
  · have hnc : ¬ isCandidate c u f := by
      rintro ⟨h1, h2, _⟩; tauto
    rcases hif with h1 | h2
    · have h1' : endsWithMp4 f = false := by simpa using h1
      simp [scanStep, h1', hnc]
    · simp [scanStep, h2, hnc]
  · push_neg at hif
    cases hp : get_video_date c f with
    | some d =>
      have hc : isCandidate c u f := ⟨hif.1, hif.2, by simp [hp]⟩
      simp [scanStep, hif.1, hif.2, hp, mem_bucketFiles_addToBucket, hc]
    | none =>
      have hnc : ¬ isCandidate c u f := by
        rintro ⟨-, -, hs⟩; simp [hp] at hs
      simp [scanStep, hif.1, hif.2, hp, hnc]

theorem mem_bucketFiles_scan (c : Nat) (u : List (List Char)) (l : List (List Char))
    (bs : List (PDate × List (List Char))) (x : List Char) :
    x ∈ bucketFiles (l.foldl (scanStep c u) bs)
      ↔ x ∈ bucketFiles bs ∨ (x ∈ l ∧ isCandidate c u x) := by
  induction l generalizing bs with
  | nil => simp
  | cons f rest ih =>
    rw [List.foldl_cons, ih, mem_bucketFiles_scanStep]
    constructor
    · rintro ((h | ⟨rfl, hc⟩) | ⟨hl, hc⟩)
      · exact Or.inl h
      · exact Or.inr ⟨List.mem_cons_self _ _, hc⟩
      · exact Or.inr ⟨List.mem_cons_of_mem _ hl, hc⟩
    · rintro (h | ⟨hm, hc⟩)
      · exact Or.inl (Or.inl h)
      · rcases List.mem_cons.mp hm with rfl | hm
        · exact Or.inl (Or.inr ⟨rfl, hc⟩)
        · exact Or.inr ⟨hm, hc⟩

theorem mem_bucketFiles_pending (c : Nat) (u dir : List (List Char)) (x : List Char) :
    x ∈ bucketFiles (get_pending_videos c dir u) ↔ x ∈ dir ∧ isCandidate c u x := by
  rw [get_pending_videos, mem_bucketFiles_scan]
  simp [bucketFiles]

theorem scanStep_not_candidate {c : Nat} {u : List (List Char)} {f : List Char}
    (h : ¬ isCandidate c u f) (bs : List (PDate × List (List Char))) :
    scanStep c u bs f = bs := by
  by_cases hif : ¬ endsWithMp4 f = true ∨ f ∈ u
  · rcases hif with h1 | h2
    · have h1' : endsWithMp4 f = false := by simpa using h1
      simp [scanStep, h1']
    · simp [scanStep, h2]
  · push_neg at hif
    cases hp : get_video_date c f with
    | some d => exact absurd ⟨hif.1, hif.2, by simp [hp]⟩ h
    | none => simp [scanStep, hif.1, hif.2, hp]

theorem scan_nil_of_no_candidate (c : Nat) (u : List (List Char)) (dir : List (List Char))
    (h : ∀ f ∈ dir, ¬ isCandidate c u f) :
    get_pending_videos c dir u = [] := by
  unfold get_pending_videos
  induction dir with
  | nil => rfl
  | cons f rest ih =>
    rw [List.foldl_cons, scanStep_not_candidate (h f (List.mem_cons_self _ _))]
    exact ih (fun g hg => h g (List.mem_cons_of_mem _ hg))

theorem runFoldl_ledger_mono (oracle : PDate × List (List Char) → Bool)
    (bs : List (PDate × List (List Char))) (st : RunResult) :
    ∀ x ∈ st.ledger, x ∈ (bs.foldl (runStep oracle) st).ledger := by
  induction bs generalizing st with
  | nil => simp
  | cons g rest ih =>
    intro x hx
    rw [List.foldl_cons]
    apply ih
    by_cases h : oracle g <;> simp [runStep, h, hx]

theorem runFoldl_ledger_covers (oracle : PDate × List (List Char) → Bool)
    (bs : List (PDate × List (List Char))) (st : RunResult)
    (hall : ∀ g ∈ bs, oracle g = true) :
    ∀ x ∈ bucketFiles bs, x ∈ (bs.foldl (runStep oracle) st).ledger := by
  induction bs generalizing st with
  | nil => simp [bucketFiles]
  | cons g rest ih =>
    intro x hx
    rw [List.foldl_cons]
    have hg : oracle g = true := hall g (List.mem_cons_self _ _)
    have hx' : x ∈ g.2 ∨ x ∈ bucketFiles rest := by
      simpa [bucketFiles] using hx
    rcases hx' with hx' | hx'
    · apply runFoldl_ledger_mono
      simp [runStep, hg, hx']
    · exact ih (runStep oracle st g) (fun g' hg' => hall g' (List.mem_cons_of_mem _ hg')) x hx'

theorem obtainedSum_nil : obtainedSum [] = 0 := rfl

theorem obtainedSum_cons_some {f : ClipFile} {d : ℚ} (hd : f.duration = some d)
    (l : List ClipFile) : obtainedSum (f :: l) = d + obtainedSum l := by
  simp [obtainedSum, List.filterMap_cons, hd]

theorem obtainedSum_cons_none {f : ClipFile} (hd : f.duration = none)
    (l : List ClipFile) : obtainedSum (f :: l) = obtainedSum l := by
  simp [obtainedSum, List.filterMap_cons, hd]

theorem descLines_length (off : ℚ) (files : List ClipFile) :
    (descLines off files).length = files.length := by
  induction files generalizing off with
  | nil => rfl
  | cons f rest ih =>
    cases hd : f.duration <;> simp [descLines, hd, ih]

theorem descLines_getD (files : List ClipFile) (off : ℚ) (i : Nat)
    (h : i < files.length) :
    (descLines off files).getD i []
      = format_time (off + obtainedSum (files.take i))
          ++ ' ' :: ' ' :: extract_clip_description ((files.getD i ⟨[], none⟩).name) := by
  induction files generalizing off i with
  | nil => simp at h
  | cons f rest ih =>
    cases i with
    | zero =>
      cases hd : f.duration <;>
        simp [descLines, hd, obtainedSum_nil]
    | succ j =>
      have hj : j < rest.length := by simpa using h
      cases hd : f.duration with
      | some d =>
        simp only [descLines, hd, List.getD_cons_succ, List.take_succ_cons,
          obtainedSum_cons_some hd, ← add_assoc]
        exact ih (off + d) j hj
      | none =>
        simp only [descLines, hd, List.getD_cons_succ, List.take_succ_cons,
          obtainedSum_cons_none hd]
        exact ih off j hj

/-- The duration list the description builder accumulates, in file order. -/
def durs (files : List ClipFile) : List ℚ :=
  files.filterMap ClipFile.duration

theorem filterMap_take_of_all_some (files : List ClipFile)
    (hsome : ∀ f ∈ files, (f.duration).isSome = true) (i : Nat) :
    (files.take i).filterMap ClipFile.duration
      = (files.filterMap ClipFile.duration).take i := by
  induction files generalizing i with
  | nil => simp
  | cons f rest ih =>
    obtain ⟨d, hd⟩ := Option.isSome_iff_exists.mp (hsome f (List.mem_cons_self _ _))
    cases i with
    | zero => simp [List.filterMap_cons, hd]
    | succ j =>
      simp [List.filterMap_cons, hd,
        ih (fun g hg => hsome g (List.mem_cons_of_mem _ hg)) j]

theorem sum_take_mono_of_nonneg (l : List ℚ) (hpos : ∀ d ∈ l, 0 ≤ d)
    {i j : Nat} (hij : i ≤ j) : (l.take i).sum ≤ (l.take j).sum := by
  have hsplit : l.take j = l.take i ++ (l.drop i).take (j - i) := by
    have hji : i + (j - i) = j := by omega
    rw [← hji, List.take_add]
    have hsub : i + (j - i) - i = j - i := by omega
    rw [hsub]
  rw [hsplit, List.sum_append]
  have hnn : 0 ≤ ((l.drop i).take (j - i)).sum :=
    List.sum_nonneg fun d hd =>
      hpos d (List.drop_subset _ _ (List.take_subset _ _ hd))
  linarith

/-! ## Claim theorems -/

/-- C10: after any completed `process_videos` run,
`successful_uploads + failed_uploads = total_processed`; every group of `N`
files adds `N` to `total_processed` and `N` to exactly one of
`successful_uploads` (when its upload succeeds) or `failed_uploads` (when it
fails, a single-file group counting `1 = N`); `single_videos` and
`merged_videos` together count exactly the successful groups. -/
theorem c10_counter_invariant (groups : List (Nat × Bool)) :
    (process_videos groups).successful_uploads + (process_videos groups).failed_uploads
        = (process_videos groups).total_processed
    ∧ (process_videos groups).total_processed = (groups.map Prod.fst).sum
    ∧ (process_videos groups).successful_uploads
        = ((groups.filter Prod.snd).map Prod.fst).sum
    ∧ (process_videos groups).failed_uploads
        = ((groups.filter (fun g => !g.2)).map Prod.fst).sum
    ∧ (process_videos groups).single_videos + (process_videos groups).merged_videos
        = (groups.filter Prod.snd).length := by
  have h := processGroup_foldl groups ⟨0, 0, 0, 0, 0⟩
  have hsplit := sum_filter_split groups
  simp only [process_videos] at *
  omega

/-- C4: in `_upload_single_video`, a primary-transport video id appends exactly
that file's basename to the ledger, deletes the source and never invokes the
fallback; a non-exceptional decline triggers exactly one fallback attempt,
whose boolean is terminal for the group — the ledger is marked and the source
deleted only when the fallback succeeds.  (Stated with `delete_after_upload`
on, its default, and a successful title parse.) -/
theorem c4_single_upload_paths (fp v : List Char) (fb : Bool) :
    upload_single_video true fp true (.vid v) fb
        = ⟨[basename fp], [fp], 0, true⟩
    ∧ upload_single_video true fp true .declined fb
        = ⟨if fb then [basename fp] else [], if fb then [fp] else [], 1, fb⟩ := by
  cases fb <;> simp [upload_single_video]

/-- C5: in `_upload_merged_video`, on either success path (primary transport
id, or decline followed by fallback success) the ledger receives the basenames
of all constituent original files — not the merged output's name — and
deletion is attempted on the merged temp file and on every constituent source
file.  (Stated with `delete_after_upload` on, its default.) -/
theorem c5_merged_upload_success_effects (td : List Char) (files : List (List Char))
    (date : PDate) (v : List Char) (fb : Bool) :
    upload_merged_video true td files date true (.vid v) fb
        = ⟨files.map basename, joinPath td (merged_filename date) :: files, 0, true⟩
    ∧ upload_merged_video true td files date true .declined true
        = ⟨files.map basename, joinPath td (merged_filename date) :: files, 1, true⟩ := by
  constructor <;> simp [upload_merged_video]

/-- C3 (code bug): with no persisted credential and no client-secrets file,
`_get_credentials` does raise `AuthenticationError` without any network
interaction, as claimed; but the contract "never returns an invalid record"
fails: a persisted record that loads with `valid = false, expired = false`
(a credential file without an access token) skips the refresh branch
(`expired` is false) and the re-authorization branch (`creds` is non-`None`)
and is returned as-is, still invalid — even with a client-secrets file present
and both network flows available and succeeding. -/
theorem c3_invalid_record_returned :
    get_credentials ⟨none, false, none, none⟩ = .authError false
    ∧ get_credentials
        ⟨some ⟨false, false, true⟩, true,
         some ⟨true, false, true⟩, some ⟨true, false, true⟩⟩
        = .ok ⟨false, false, true⟩ false
    ∧ (⟨false, false, true⟩ : CredRecord).valid = false := by
  decide

/-- C7: the effective date of a file whose parsed hour is strictly below the
cutoff is the previous calendar day, otherwise the parsed date itself; with
cutoff 4 the two quoted filenames yield `2023-12-31` and `2024-01-01`, and the
two clips of 2024-03-01 land in the distinct buckets keyed `2024-02-29` and
`2024-03-01`. -/
theorem c7_effective_date :
    (∀ (f : List Char) (dt : PDateTime) (cutoff : Nat),
        parsed_timestamp f = some dt →
        get_video_date cutoff f
          = some (if dt.hour < cutoff then PDate.prevDay dt.toDate else dt.toDate))
    ∧ get_video_date 4 "2024-01-01 03-59-59 - user - raid boss (x)".data
        = some ⟨2023, 12, 31⟩
    ∧ get_video_date 4 "2024-01-01 04-00-00 - user - raid boss (x)".data
        = some ⟨2024, 1, 1⟩
    ∧ get_pending_videos 4
        ["2024-03-01 02-00-00 - Alice - arena win (clip1).mp4".data,
         "2024-03-01 05-00-00 - Alice - arena loss (clip2).mp4".data] []
        = [(⟨2024, 2, 29⟩, ["2024-03-01 02-00-00 - Alice - arena win (clip1).mp4".data]),
           (⟨2024, 3, 1⟩, ["2024-03-01 05-00-00 - Alice - arena loss (clip2).mp4".data])] := by
  refine ⟨?_, by decide, by decide, by decide⟩
  intro f dt cutoff h
  by_cases hc : dt.hour < cutoff <;>
    simp [get_video_date, get_video_datetime, h, hc, PDateTime.subOneDay, PDateTime.toDate]

/-- Witness for C7 at the first quoted filename. -/
theorem c7_witness :
    get_video_date 4 "2024-01-01 03-59-59 - user - raid boss (x)".data
      = some ⟨2023, 12, 31⟩ := by
  have h := c7_effective_date.1 "2024-01-01 03-59-59 - user - raid boss (x)".data
    ⟨2024, 1, 1, 3, 59, 59⟩ 4 (by decide)
  rw [h]; decide

/-- C1 (counterexample): a bucket mixing a late-evening file with the next
calendar day's early-morning file.  Both land in the `2024-02-29` day-group,
but the code sorts by the early-morning-adjusted datetime, which places the
`2024-03-01 02:00` file (adjusted to `2024-02-29 02:00`) before the
`2024-02-29 23:00` file — so the bucket sequence is strictly decreasing by the
raw timestamp parsed from the filename, refuting the claim as stated. -/
theorem c1_counterexample :
    get_pending_videos 4
        ["2024-02-29 23-00-00 - u - x y (a).mp4".data,
         "2024-03-01 02-00-00 - u - x y (b).mp4".data] []
      = [(⟨2024, 2, 29⟩,
          ["2024-02-29 23-00-00 - u - x y (a).mp4".data,
           "2024-03-01 02-00-00 - u - x y (b).mp4".data])]
    ∧ sortFiles 4
        ["2024-02-29 23-00-00 - u - x y (a).mp4".data,
         "2024-03-01 02-00-00 - u - x y (b).mp4".data]
      = ["2024-03-01 02-00-00 - u - x y (b).mp4".data,
         "2024-02-29 23-00-00 - u - x y (a).mp4".data]
    ∧ nonDecBy rawKey
        (sortFiles 4
          ["2024-02-29 23-00-00 - u - x y (a).mp4".data,
           "2024-03-01 02-00-00 - u - x y (b).mp4".data]) = false := by
  decide

/-- C1 (amended): within a day-group the code's ordering is a permutation of
the bucket that is non-decreasing by the early-morning-adjusted datetime (the
sort key `get_video_datetime` actually returns), not by the raw recorded
timestamp; ties of the adjusted key keep their original discovery order
(stability). -/
theorem c1_sorted_by_adjusted_datetime (cutoff : Nat) (files : List (List Char)) :
    (sortFiles cutoff files).Pairwise (sortLE cutoff)
    ∧ (sortFiles cutoff files).Perm files
    ∧ ∀ a b : List Char, sortLE cutoff a b → List.Sublist [a, b] files →
        List.Sublist [a, b] (sortFiles cutoff files) := by
  refine ⟨?_, List.perm_insertionSort _ _,
    fun a b hab hsub => List.pair_sublist_insertionSort hab hsub⟩
  exact @List.sorted_insertionSort _ (sortLE cutoff) _
    ⟨fun a b => Nat.le_total _ _⟩ ⟨fun a b c => Nat.le_trans⟩ files

/-- Witness for C1's amended statement: a concrete two-file bucket, with the
stability clause instantiated at its two files. -/
theorem c1_sorted_witness :
    List.Sublist
      ["2024-03-01 02-00-00 - u - x y (b).mp4".data,
       "2024-02-29 23-00-00 - u - x y (a).mp4".data]
      (sortFiles 4
        ["2024-03-01 02-00-00 - u - x y (b).mp4".data,
         "2024-02-29 23-00-00 - u - x y (a).mp4".data]) :=
  (c1_sorted_by_adjusted_datetime 4
      ["2024-03-01 02-00-00 - u - x y (b).mp4".data,
       "2024-02-29 23-00-00 - u - x y (a).mp4".data]).2.2
    "2024-03-01 02-00-00 - u - x y (b).mp4".data
    "2024-02-29 23-00-00 - u - x y (a).mp4".data
    (by decide) (List.Sublist.refl _)

/-- C8: during candidate grouping, a filename whose effective date fails to
parse is skipped: the buckets are exactly those of the same scan without it,
and it appears in no bucket — the scan total function never aborts on it. -/
theorem c8_malformed_skipped (cutoff : Nat) (pre post uploaded : List (List Char))
    (bad : List Char) (h : get_video_date cutoff bad = none) :
    get_pending_videos cutoff (pre ++ bad :: post) uploaded
        = get_pending_videos cutoff (pre ++ post) uploaded
    ∧ bad ∉ bucketFiles (get_pending_videos cutoff (pre ++ bad :: post) uploaded) := by
  have hnc : ¬ isCandidate cutoff uploaded bad := by
    rintro ⟨-, -, hs⟩; simp [h] at hs
  constructor
  · unfold get_pending_videos
    rw [List.foldl_append, List.foldl_append, List.foldl_cons,
      scanStep_not_candidate hnc]
  · rw [mem_bucketFiles_pending]
    rintro ⟨-, hc⟩
    exact hnc hc

/-- Witness for C8: `"garbage.mp4"` among two valid files is dropped while the
others group normally. -/
theorem c8_witness :
    get_pending_videos 4
        (["2024-03-01 02-00-00 - Alice - arena win (clip1).mp4".data]
          ++ "garbage.mp4".data
            :: ["2024-03-01 05-00-00 - Alice - arena loss (clip2).mp4".data]) []
      = get_pending_videos 4
          (["2024-03-01 02-00-00 - Alice - arena win (clip1).mp4".data]
            ++ ["2024-03-01 05-00-00 - Alice - arena loss (clip2).mp4".data]) [] :=
  (c8_malformed_skipped 4
    ["2024-03-01 02-00-00 - Alice - arena win (clip1).mp4".data]
    ["2024-03-01 05-00-00 - Alice - arena loss (clip2).mp4".data]
    [] "garbage.mp4".data (by decide)).1

/-- C6: a filename in the uploaded ledger is excluded from every bucket of a
scan; and if every group of a first pipeline run uploads successfully, a
second run over the unchanged directory with the unchanged upload behaviour
finds no pending videos at all — it attempts nothing, uploads nothing and
leaves the ledger unchanged. -/
theorem c6_ledger_idempotent (cutoff : Nat)
    (oracle : PDate × List (List Char) → Bool) (dir up : List (List Char)) :
    (∀ f ∈ up, f ∉ bucketFiles (get_pending_videos cutoff dir up))
    ∧ ((∀ g ∈ get_pending_videos cutoff dir up, oracle g = true) →
        get_pending_videos cutoff dir (runPipeline cutoff oracle dir up).ledger = []
        ∧ runPipeline cutoff oracle dir (runPipeline cutoff oracle dir up).ledger
            = ⟨(runPipeline cutoff oracle dir up).ledger, 0, 0⟩) := by
  constructor
  · intro f hf hmem
    exact ((mem_bucketFiles_pending cutoff up dir f).mp hmem).2.2.1 hf
  · intro hall
    have hnone : ∀ f ∈ dir,
        ¬ isCandidate cutoff (runPipeline cutoff oracle dir up).ledger f := by
      rintro f hf ⟨hmp4, hnotin, hsome⟩
      by_cases hup : f ∈ up
      · exact hnotin (runFoldl_ledger_mono oracle _ ⟨up, 0, 0⟩ f hup)
      · have hbucket : f ∈ bucketFiles (get_pending_videos cutoff dir up) :=
          (mem_bucketFiles_pending cutoff up dir f).mpr ⟨hf, hmp4, hup, hsome⟩
        exact hnotin (runFoldl_ledger_covers oracle _ ⟨up, 0, 0⟩ hall f hbucket)
    have hempty := scan_nil_of_no_candidate cutoff
      (runPipeline cutoff oracle dir up).ledger dir hnone
    refine ⟨hempty, ?_⟩
    rw [runPipeline, hempty]
    rfl

/-- C2 (counterexample): the description loop appends the timeline line
*before* fetching the duration, so a file whose duration fetch fails still
contributes its line — only the offset advance is skipped.  With the first
file's fetch failing, the output nonetheless has two lines, the first being
the failing file's line, and the second file still starts at offset `00:00`. -/
theorem c2_counterexample :
    create_merged_description
        [⟨"2024-01-01 10-00-00 - u - a b (x).mp4".data, none⟩,
         ⟨"2024-01-01 11-00-00 - u - c d (y).mp4".data, some 5⟩]
      = "00:00  u - a b (x)\n00:00  u - c d (y)".data
    ∧ (descLines 0
        [⟨"2024-01-01 10-00-00 - u - a b (x).mp4".data, none⟩,
         ⟨"2024-01-01 11-00-00 - u - c d (y).mp4".data, some 5⟩]).length = 2 := by
  with_unfolding_all decide

/-- C2 (amended): when a clip's duration fetch fails, its timeline line is
still emitted (one output line per input file, no omission), the running
offset is not advanced for that file — each line's offset is the sum of the
durations that were actually obtained for the preceding files — and
processing continues with the remaining files. -/
theorem c2_lines_kept_offset_skipped (files : List ClipFile) (off : ℚ) :
    (descLines off files).length = files.length
    ∧ ∀ i, i < files.length →
        (descLines off files).getD i []
          = format_time (off + obtainedSum (files.take i))
              ++ ' ' :: ' ' :: extract_clip_description ((files.getD i ⟨[], none⟩).name) :=
  ⟨descLines_length off files, fun i h => descLines_getD files off i h⟩

/-- Witness for C2's amended statement: the second line of the counterexample
list, whose offset ignores the failed first fetch. -/
theorem c2_witness :
    (descLines 0
        [⟨"2024-01-01 10-00-00 - u - a b (x).mp4".data, none⟩,
         ⟨"2024-01-01 11-00-00 - u - c d (y).mp4".data, some 5⟩]).getD 1 []
      = format_time (0 + obtainedSum
            ([⟨"2024-01-01 10-00-00 - u - a b (x).mp4".data, none⟩,
              ⟨"2024-01-01 11-00-00 - u - c d (y).mp4".data, some 5⟩].take 1))
          ++ ' ' :: ' ' :: extract_clip_description
            ((([⟨"2024-01-01 10-00-00 - u - a b (x).mp4".data, none⟩,
                ⟨"2024-01-01 11-00-00 - u - c d (y).mp4".data, some 5⟩] :
                List ClipFile).getD 1 ⟨[], none⟩).name) :=
  (c2_lines_kept_offset_skipped
      [⟨"2024-01-01 10-00-00 - u - a b (x).mp4".data, none⟩,
       ⟨"2024-01-01 11-00-00 - u - c d (y).mp4".data, some 5⟩] 0).2 1 (by decide)

/-- C9: when every duration fetch succeeds, the `i`-th line's offset is the
cumulative sum of the durations of all preceding files starting from `0`,
formatted by `format_time` (zero-padded `MM:SS`, switching to `HH:MM:SS` from
one hour, rounded to the nearest second), and the offset sequence is
monotonically non-decreasing. -/
theorem c9_offsets_cumulative (files : List ClipFile)
    (hsome : ∀ f ∈ files, (f.duration).isSome = true)
    (hpos : ∀ f ∈ files, 0 ≤ f.duration.getD 0) :
    (∀ i, i < files.length →
        (descLines 0 files).getD i []
          = format_time ((durs files).take i).sum
              ++ ' ' :: ' ' :: extract_clip_description ((files.getD i ⟨[], none⟩).name))
    ∧ ∀ i j, i ≤ j → ((durs files).take i).sum ≤ ((durs files).take j).sum := by
  constructor
  · intro i h
    have hchar := descLines_getD files 0 i h
    have hsum : obtainedSum (files.take i) = ((durs files).take i).sum := by
      rw [obtainedSum, filterMap_take_of_all_some files hsome i]; rfl
    rwa [hsum, zero_add] at hchar
  · intro i j hij
    refine sum_take_mono_of_nonneg (durs files) ?_ hij
    intro d hd
    obtain ⟨f, hf, hfd⟩ := List.mem_filterMap.mp hd
    have := hpos f hf
    rwa [hfd] at this

/-- Witness for C9: two clips of 65 s and 2.5 s; the second line's offset is
the 65-second cumulative sum. -/
theorem c9_witness :
    (descLines 0
        [⟨"2024-01-01 10-00-00 - u - a b (x).mp4".data, some 65⟩,
         ⟨"2024-01-01 11-00-00 - u - c d (y).mp4".data, some (mkRat 5 2)⟩]).getD 1 []
      = format_time ((durs
            [⟨"2024-01-01 10-00-00 - u - a b (x).mp4".data, some 65⟩,
             ⟨"2024-01-01 11-00-00 - u - c d (y).mp4".data, some (mkRat 5 2)⟩]).take 1).sum
          ++ ' ' :: ' ' :: extract_clip_description
            ((([⟨"2024-01-01 10-00-00 - u - a b (x).mp4".data, some 65⟩,
                ⟨"2024-01-01 11-00-00 - u - c d (y).mp4".data, some (mkRat 5 2)⟩] :
                List ClipFile).getD 1 ⟨[], none⟩).name) :=
  (c9_offsets_cumulative
      [⟨"2024-01-01 10-00-00 - u - a b (x).mp4".data, some 65⟩,
       ⟨"2024-01-01 11-00-00 - u - c d (y).mp4".data, some (mkRat 5 2)⟩]
      (by decide) (by with_unfolding_all decide)).1 1 (by decide)

/-- Witness for C6: a concrete directory with one already-uploaded name and
one fresh clip, under an always-succeeding upload oracle. -/
theorem c6_witness :
    get_pending_videos 4
        ["a.mp4".data, "2024-03-01 05-00-00 - Alice - arena loss (clip2).mp4".data]
        (runPipeline 4 (fun _ => true)
          ["a.mp4".data, "2024-03-01 05-00-00 - Alice - arena loss (clip2).mp4".data]
          ["a.mp4".data]).ledger
      = [] :=
  ((c6_ledger_idempotent 4 (fun _ => true)
      ["a.mp4".data, "2024-03-01 05-00-00 - Alice - arena loss (clip2).mp4".data]
      ["a.mp4".data]).2 (by decide)).1

end YTUpload

